import Mathlib

/-!
Verification of the offline-queue synchronization engine (Redux version):
a shallow embedding of `src/store/queueSlice.ts`, `src/services/IndexedDBManager.ts`
and the Redux `SubmissionForm.onSubmit` pipeline, together with theorems about
the entry lifecycle, FIFO processing, retry bookkeeping and blob handling.

Modelling conventions:
* `crypto.randomUUID()` / the UUID generator is modelled by a fresh-id counter
  `nextId`; ids are natural numbers standing for the UUID strings.
* `Date.now()` is modelled by a counter `now` that ticks on every id-generating
  write, matching the spec's "monotonically assigned creation timestamp".
* The two IndexedDB object stores `formQueue` (keyPath `id`) and `queueImages`
  (keyPath `imageId`) are modelled as association lists; `db.put` is a
  replace-or-append keyed update, `db.delete` a keyed filter.
* Async thunks become pure state transformers on a `World` holding the Redux
  store state and both tables; the `pending`/`fulfilled` reducer pair of a
  thunk is folded into the transformer (net effect on `loading`/`error`).
* The `apiClient.submitFormData` collaborator is an oracle
  `DeliveryClient : item → images → Option String`; `none` is success, `some
  msg` a failure whose message is `error.message`.
* Every delivery submission is logged as an `Attempt`, recording the snapshot
  item that was submitted, the images resolved for it, and the store/database
  status of the entry at submission time (pure observations, no dynamics).
-/

namespace OfflineQueue

/-- `QueueItemStatus` from `src/types/queue.ts`. -/
inductive Status
  | pending
  | sending
  | sent
  | error
deriving DecidableEq, Repr

/-- `QueueItemDB` from `src/services/IndexedDBManager.ts` (identical to the
store's `QueueItem` shape after the Redux migration): metadata plus the
`imageIds` references, never the blobs themselves. -/
structure QueueItemDB where
  id : Nat
  timestamp : Nat
  status : Status
  retryCount : Nat
  data : List (String × String)
  imageIds : List Nat
  error : Option String
deriving DecidableEq, Repr

/-- `ImageData` from `src/services/IndexedDBManager.ts`: a stored blob record. -/
structure ImageData where
  imageId : Nat
  blob : List Nat
  fileName : String
  mimeType : String
  uploadedAt : Nat
deriving DecidableEq, Repr

/-- The Redux `QueueState` from `src/store/queueSlice.ts`. -/
structure QueueState where
  items : List QueueItemDB
  loading : Bool
  error : Option String
  processingItemId : Option Nat
deriving DecidableEq, Repr

/-- The whole mutable world: Redux store plus the two IndexedDB tables plus
the fresh-id supply and the monotone clock. -/
structure World where
  queue : QueueState
  formQueue : List QueueItemDB
  queueImages : List ImageData
  nextId : Nat
  now : Nat
deriving DecidableEq, Repr

/-- `db.put('formQueue', item)`: keyed upsert (keyPath `id`). -/
def putItem (tbl : List QueueItemDB) (it : QueueItemDB) : List QueueItemDB :=
  if tbl.any (fun r => r.id = it.id) then
    tbl.map (fun r => if r.id = it.id then it else r)
  else
    tbl ++ [it]

/-- `indexedDBManager.getQueueItem`. -/
def getQueueItem (tbl : List QueueItemDB) (id : Nat) : Option QueueItemDB :=
  tbl.find? (fun r => r.id = id)

/-- `indexedDBManager.deleteQueueItem`. -/
def deleteQueueItem (tbl : List QueueItemDB) (id : Nat) : List QueueItemDB :=
  tbl.filter (fun r => r.id ≠ id)

/-- `db.put('queueImages', imageData)`: keyed upsert (keyPath `imageId`). -/
def putImage (tbl : List ImageData) (im : ImageData) : List ImageData :=
  if tbl.any (fun r => r.imageId = im.imageId) then
    tbl.map (fun r => if r.imageId = im.imageId then im else r)
  else
    tbl ++ [im]

/-- `indexedDBManager.getImage`. -/
def getImage (tbl : List ImageData) (imageId : Nat) : Option ImageData :=
  tbl.find? (fun r => r.imageId = imageId)

/-- `indexedDBManager.getImages`: resolve each id, dropping the unresolved
ones (the `filter(img !== undefined)` step), preserving order. -/
def getImages (tbl : List ImageData) (ids : List Nat) : List ImageData :=
  ids.filterMap (getImage tbl)

/-- `indexedDBManager.deleteImages`: delete every listed image id. -/
def deleteImages (tbl : List ImageData) (ids : List Nat) : List ImageData :=
  tbl.filter (fun r => r.imageId ∉ ids)

/-- Insertion step of `getAllQueueItems`'s
`items.sort((a, b) => a.timestamp - b.timestamp)`. -/
def insertByTs (it : QueueItemDB) : List QueueItemDB → List QueueItemDB
  | [] => [it]
  | x :: xs => if it.timestamp < x.timestamp then it :: x :: xs else x :: insertByTs it xs

/-- `getAllQueueItems`: all rows of `formQueue` sorted ascending by
`timestamp`. -/
def sortByTs : List QueueItemDB → List QueueItemDB
  | [] => []
  | x :: xs => insertByTs x (sortByTs xs)

/-- Reducer `itemStatusUpdated` from `queueSlice.ts`: update the first item
with the given id; the error message is copied only when the payload carries a
truthy (non-empty) `error` field, exactly as `if (action.payload.error)`. -/
def updateFirst (p : QueueItemDB → Bool) (f : QueueItemDB → QueueItemDB) :
    List QueueItemDB → List QueueItemDB
  | [] => []
  | x :: xs => if p x then f x :: xs else x :: updateFirst p f xs

/-- Reducer `itemStatusUpdated`. -/
def itemStatusUpdated (s : QueueState) (id : Nat) (st : Status) (err : Option String) :
    QueueState :=
  let upd : QueueItemDB → QueueItemDB := fun i =>
    { i with
      status := st
      error := match err with
        | some e => if e = "" then i.error else some e
        | none => i.error }
  { s with items := updateFirst (fun i => i.id = id) upd s.items }

/-- Reducer `itemRetried`. -/
def itemRetried (s : QueueState) (id : Nat) (rc : Nat) : QueueState :=
  let upd : QueueItemDB → QueueItemDB := fun i =>
    { i with retryCount := rc, status := Status.pending }
  { s with items := updateFirst (fun i => i.id = id) upd s.items }

/-- Store lookup by id (the `state.queue.items.find(i => i.id === id)` idiom). -/
def findStore (w : World) (id : Nat) : Option QueueItemDB :=
  w.queue.items.find? (fun i => i.id = id)

/-- Thunk `deleteItem` from `queueSlice.ts`: if the id is in the store, delete
its images and its `formQueue` row; the `fulfilled` reducer then filters the
item out of the store. Deleting an absent id is a no-op on the database. -/
def deleteItem (w : World) (id : Nat) : World :=
  let w' := match w.queue.items.find? (fun i => i.id = id) with
    | some item =>
        { w with
          queueImages := deleteImages w.queueImages item.imageIds
          formQueue := deleteQueueItem w.formQueue id }
    | none => w
  { w' with queue := { w'.queue with items := w'.queue.items.filter (fun i => i.id ≠ id) } }

/-- Thunk `addToQueue`: build the item with a fresh id, `Date.now()`
timestamp, status `pending` and `retryCount 0`, save it to `formQueue`, and
(`fulfilled` reducer) push it onto the store. -/
def addToQueue (w : World) (data : List (String × String)) (imageIds : List Nat) : World :=
  let item : QueueItemDB :=
    { id := w.nextId, timestamp := w.now, status := Status.pending,
      retryCount := 0, data := data, imageIds := imageIds, error := none }
  { w with
    nextId := w.nextId + 1
    now := w.now + 1
    formQueue := putItem w.formQueue item
    queue := { w.queue with items := w.queue.items ++ [item], loading := false, error := none } }

/-- `indexedDBManager.saveImage`: store the blob under a fresh id and return
the id. -/
def saveImage (w : World) (blob : List Nat) (fileName mimeType : String) : World × Nat :=
  let im : ImageData :=
    { imageId := w.nextId, blob := blob, fileName := fileName,
      mimeType := mimeType, uploadedAt := w.now }
  ({ w with nextId := w.nextId + 1, now := w.now + 1,
            queueImages := putImage w.queueImages im }, w.nextId)

/-- A raw form attachment (a `File` from the form input). -/
structure Attachment where
  blob : List Nat
  fileName : String
  mimeType : String
deriving DecidableEq, Repr

/-- The `images.map(file => saveImage(...))` pipeline of the Redux
`SubmissionForm.onSubmit`: save every attachment, collecting the generated ids
in the attachments' original order. -/
def saveImagesLoop (w : World) : List Attachment → World × List Nat
  | [] => (w, [])
  | a :: rest =>
    let r1 := saveImage w a.blob a.fileName a.mimeType
    let r2 := saveImagesLoop r1.1 rest
    (r2.1, r1.2 :: r2.2)

/-- `SubmissionForm.onSubmit` (Redux version): save the blobs first, then
dispatch `addToQueue` with only the generated ids. Returns the new entry's id. -/
def submitForm (w : World) (data : List (String × String)) (atts : List Attachment) :
    World × Nat :=
  let r := saveImagesLoop w atts
  (addToQueue r.1 data r.2, r.1.nextId)

/-- Thunk `initQueue`: load all `formQueue` rows, sorted by timestamp, into
the store. -/
def initQueue (w : World) : World :=
  { w with queue := { w.queue with items := sortByTs w.formQueue, loading := false, error := none } }

/-- The external Delivery Client (`apiClient.submitFormData`): receives the
snapshot item together with its resolved images; `none` is a successful
submission, `some msg` a failure with message `msg`. -/
def DeliveryClient : Type :=
  QueueItemDB → List ImageData → Option String

/-- Log entry for one delivery submission: the snapshot item that was
submitted, the images resolved for it, and — as pure observations — the
store / `formQueue` status of the entry at the moment of submission. -/
structure Attempt where
  item : QueueItemDB
  images : List ImageData
  storeStatus : Option Status
  dbStatus : Option Status
deriving DecidableEq, Repr

/-- One iteration of the `for (const item of pendingItems)` loop in
`processQueue`: optimistically mark the item `sending` in the store, resolve
its images, submit, and on the outcome either mark it `sent` and delete it, or
increment the retry count — transitioning to `error` (persisting status and
message) at the third failure, else back to `pending` (persisting the new
retry count). -/
def processItem (client : DeliveryClient) (w : World) (item : QueueItemDB) :
    World × Attempt :=
  let w1 : World := { w with queue := itemStatusUpdated w.queue item.id Status.sending none }
  let images := getImages w1.queueImages item.imageIds
  let att : Attempt :=
    { item := item, images := images,
      storeStatus := (findStore w1 item.id).map (fun i => i.status),
      dbStatus := (getQueueItem w1.formQueue item.id).map (fun d => d.status) }
  match client item images with
  | none =>
    let w2 : World := { w1 with queue := itemStatusUpdated w1.queue item.id Status.sent none }
    (deleteItem w2 item.id, att)
  | some msg =>
    let rc := item.retryCount + 1
    if 3 ≤ rc then
      let w2 : World := { w1 with queue := itemStatusUpdated w1.queue item.id Status.error (some msg) }
      match getQueueItem w2.formQueue item.id with
      | some dbItem =>
          let dbItem' : QueueItemDB := { dbItem with status := Status.error, error := some msg }
          ({ w2 with formQueue := putItem w2.formQueue dbItem' }, att)
      | none => (w2, att)
    else
      let w2 : World := { w1 with queue := itemRetried w1.queue item.id rc }
      match getQueueItem w2.formQueue item.id with
      | some dbItem =>
          let dbItem' : QueueItemDB := { dbItem with retryCount := rc, status := Status.pending }
          ({ w2 with formQueue := putItem w2.formQueue dbItem' }, att)
      | none => (w2, att)

/-- The sequential loop body of `processQueue` over the snapshot, threading
the world and collecting the submission log. A failure for one item is caught
per item (`try`/`catch` inside the loop), so the loop always continues with
the next snapshot entry. -/
def processPass (client : DeliveryClient) : World → List QueueItemDB → World × List Attempt
  | w, [] => (w, [])
  | w, i :: rest =>
    let r1 := processItem client w i
    let r2 := processPass client r1.1 rest
    (r2.1, r1.2 :: r2.2)

/-- Thunk `processQueue`: return immediately when offline; otherwise snapshot
the store's `pending` items and process them strictly sequentially. The
`pending`/`fulfilled` reducers net to `loading := false`. -/
def processQueue (client : DeliveryClient) (online : Bool) (w : World) :
    World × List Attempt :=
  if online then
    let pendingItems := w.queue.items.filter (fun i => i.status = Status.pending)
    let r := processPass client w pendingItems
    ({ r.1 with queue := { r.1.queue with loading := false } }, r.2)
  else
    ({ w with queue := { w.queue with loading := false } }, [])

/-- The empty initial world: Redux `initialState`, empty database, fresh
counters. -/
def initialWorld : World :=
  { queue := { items := [], loading := false, error := none, processingItemId := none },
    formQueue := [], queueImages := [], nextId := 0, now := 0 }

/-- Worlds reachable from the empty world through the controller operations:
startup load, form submission (blobs first, then the entry), a processing
pass (with any client and any connectivity), and explicit deletion. -/
inductive Reachable : World → Prop
  | init : Reachable initialWorld
  | load {w : World} : Reachable w → Reachable (initQueue w)
  | submit {w : World} (data : List (String × String)) (atts : List Attachment) :
      Reachable w → Reachable (submitForm w data atts).1
  | process {w : World} (client : DeliveryClient) (online : Bool) :
      Reachable w → Reachable (processQueue client online w).1
  | remove {w : World} (id : Nat) :
      Reachable w → Reachable (deleteItem w id)

/-- System state for interleaved executions of two `processQueue` triggers:
the shared world, the remaining snapshot of each in-flight pass (`none` when
the pass has not been started), and the combined submission log. The thunk
body runs synchronously up to its first `await`, so taking the `pending`
snapshot is one atomic step, and each loop iteration (which spans `await`s)
is a step during which the other pass may run. -/
structure Sys where
  w : World
  t1 : Option (List QueueItemDB)
  t2 : Option (List QueueItemDB)
  log : List Attempt
deriving Repr

/-- Scheduler events: start (snapshot) or advance one item of pass 1 / 2. -/
inductive SchedStep
  | start1
  | start2
  | step1
  | step2
deriving DecidableEq, Repr

/-- One scheduler event: starting a pass takes the `pending` snapshot from
the current store (or an empty snapshot when offline); stepping a pass
processes its next snapshot item exactly as `processItem` and appends the
submission to the log. A step of an unstarted or finished pass is a no-op. -/
def schedRun (client : DeliveryClient) (online : Bool) (s : Sys) : SchedStep → Sys
  | .start1 =>
    { s with t1 := some (if online then s.w.queue.items.filter (fun i => i.status = Status.pending) else []) }
  | .start2 =>
    { s with t2 := some (if online then s.w.queue.items.filter (fun i => i.status = Status.pending) else []) }
  | .step1 =>
    match s.t1 with
    | some (i :: rest) =>
      let r := processItem client s.w i
      { s with w := r.1, t1 := some rest, log := s.log ++ [r.2] }
    | _ => s
  | .step2 =>
    match s.t2 with
    | some (i :: rest) =>
      let r := processItem client s.w i
      { s with w := r.1, t2 := some rest, log := s.log ++ [r.2] }
    | _ => s

/-- Run a whole schedule of interleaved events. -/
def schedExec (client : DeliveryClient) (online : Bool) (s : Sys) :
    List SchedStep → Sys
  | [] => s
  | e :: rest => schedExec client online (schedRun client online s e) rest

/-- The universe of values that can cross the reactive (Redux) transport
boundary: strings, numbers, and raw binary blobs. -/
inductive JValue
  | jstr (s : String)
  | jnum (n : Nat)
  | jblob (bytes : List Nat)
deriving DecidableEq, Repr

/-- Whether a transported value is a raw binary blob. -/
def JValue.isBlob : JValue → Bool
  | .jblob _ => true
  | _ => false

/-- The enum-string encoding of a status. -/
def statusString : Status → String
  | .pending => "pending"
  | .sending => "sending"
  | .sent => "sent"
  | .error => "error"

/-- The flat list of values a store item carries across the reactive
boundary, field by field of the source's `QueueItemDB` shape: id, timestamp,
status string, retry count, the string form fields, the image-id references,
and the optional error message. -/
def itemValues (i : QueueItemDB) : List JValue :=
  JValue.jnum i.id :: JValue.jnum i.timestamp :: JValue.jstr (statusString i.status) ::
    JValue.jnum i.retryCount ::
    (i.data.map (fun kv => JValue.jstr kv.1) ++ i.data.map (fun kv => JValue.jstr kv.2) ++
     i.imageIds.map JValue.jnum ++
     (match i.error with
      | some e => [JValue.jstr e]
      | none => []))

/-- The values contained in a stored blob record (these do include the raw
bytes — blobs exist in the model, on the persistence side). -/
def imageValues (im : ImageData) : List JValue :=
  [JValue.jnum im.imageId, JValue.jblob im.blob, JValue.jstr im.fileName,
   JValue.jstr im.mimeType, JValue.jnum im.uploadedAt]

/-- An entry is fully absent: not in the store, not in `formQueue`, and none
of its referenced blobs resolve. -/
def entryAbsent (w : World) (e : QueueItemDB) : Prop :=
  findStore w e.id = none ∧ getQueueItem w.formQueue e.id = none ∧
    ∀ g ∈ e.imageIds, getImage w.queueImages g = none

/-- A Delivery Client that fails every submission with the same message. -/
def failingClient : DeliveryClient := fun _ _ => some "HTTP 500: fail"

/-- A Delivery Client that accepts every submission. -/
def acceptingClient : DeliveryClient := fun _ _ => none

/-- Concrete scenario: one submission with a single attachment. -/
def oneItemWorld : World :=
  (submitForm initialWorld [("title", "x")] [⟨[1, 2, 3], "a.png", "image/png"⟩]).1

/-- Concrete scenario: two submissions without attachments (entries with ids
`0` and `1`). -/
def twoItemWorld : World :=
  (submitForm (submitForm initialWorld [("title", "a")] []).1 [("title", "b")] []).1

end OfflineQueue

namespace OfflineQueue

/-! ### Basic lemmas about the keyed tables and the store reducers -/

theorem find?_updateFirst_of_ne {pid xid : Nat} (f : QueueItemDB → QueueItemDB)
    (hf : ∀ x, (f x).id = x.id) (hne : xid ≠ pid) :
    ∀ l : List QueueItemDB,
      (updateFirst (fun i => i.id = pid) f l).find? (fun i => i.id = xid)
        = l.find? (fun i => i.id = xid)
  | [] => rfl
  | x :: xs => by
    have hpx : ¬ pid = xid := fun h => hne h.symm
    by_cases hp : x.id = pid
    · simp [updateFirst, hp, List.find?_cons, hf x, hpx]
    · by_cases hx : x.id = xid
      · rw [updateFirst, if_neg (by simpa using hp)]
        simp [List.find?_cons, hx]
      · rw [updateFirst, if_neg (by simpa using hp)]
        simp [List.find?_cons, hx, find?_updateFirst_of_ne f hf hne xs]

theorem find?_updateFirst_self {pid : Nat} (f : QueueItemDB → QueueItemDB)
    (hf : ∀ x, (f x).id = x.id) :
    ∀ l : List QueueItemDB,
      (updateFirst (fun i => i.id = pid) f l).find? (fun i => i.id = pid)
        = (l.find? (fun i => i.id = pid)).map f
  | [] => rfl
  | x :: xs => by
    by_cases hp : x.id = pid
    · simp [updateFirst, hp, List.find?_cons, hf x]
    · simp [updateFirst, hp, List.find?_cons, find?_updateFirst_self f hf xs]

theorem find?_filter_of_imp {α : Type} (q r : α → Bool) (h : ∀ x, q x = true → r x = true) :
    ∀ l : List α, (l.filter r).find? q = l.find? q
  | [] => rfl
  | x :: xs => by
    by_cases hq : q x = true
    · simp [List.filter_cons, h x hq, List.find?_cons, hq]
    · by_cases hr : r x = true
      · simp [List.filter_cons, hr, List.find?_cons, hq, find?_filter_of_imp q r h xs]
      · simp [List.filter_cons, hr, List.find?_cons, hq, find?_filter_of_imp q r h xs]

theorem find?_filter_ne_self (l : List QueueItemDB) (a : Nat) :
    (l.filter (fun x => x.id ≠ a)).find? (fun x => x.id = a) = none := by
  rw [List.find?_eq_none]
  intro x hx
  simp only [List.mem_filter] at hx
  simpa using hx.2

theorem deleteImages_getImage_mem (tbl : List ImageData) (ids : List Nat) (g : Nat)
    (hg : g ∈ ids) : getImage (deleteImages tbl ids) g = none := by
  rw [getImage, List.find?_eq_none]
  intro x hx
  simp only [deleteImages, List.mem_filter, decide_not, Bool.not_eq_true',
    decide_eq_false_iff_not] at hx
  simp only [decide_eq_true_eq]
  intro hid
  exact hx.2 (by rw [hid]; exact hg)

theorem getImage_none_of_sublist {t' t : List ImageData} (h : List.Sublist t' t) {g : Nat}
    (hg : getImage t g = none) : getImage t' g = none := by
  rw [getImage, List.find?_eq_none]
  intro x hx
  rw [getImage, List.find?_eq_none] at hg
  exact hg x (h.subset hx)

theorem find?_map_replace_ne (tbl : List QueueItemDB) (it : QueueItemDB) {xid : Nat}
    (hne : it.id ≠ xid) :
    (tbl.map (fun r => if r.id = it.id then it else r)).find? (fun r => r.id = xid)
      = tbl.find? (fun r => r.id = xid) := by
  induction tbl with
  | nil => rfl
  | cons r rest ih =>
    by_cases hr : r.id = it.id
    · have hrx : ¬ r.id = xid := by rw [hr]; exact hne
      simp [List.find?_cons, hr, hne, hrx, ih]
    · by_cases hx : r.id = xid
      · simp only [List.map_cons]
        rw [if_neg hr]
        simp [List.find?_cons, hx]
      · simp only [List.map_cons]
        rw [if_neg hr]
        simp [List.find?_cons, hx, ih]

theorem find?_append_singleton_ne (tbl : List QueueItemDB) (it : QueueItemDB) {xid : Nat}
    (hne : it.id ≠ xid) :
    (tbl ++ [it]).find? (fun r => r.id = xid) = tbl.find? (fun r => r.id = xid) := by
  induction tbl with
  | nil => simp [List.find?_cons, hne]
  | cons r rest ih =>
    by_cases hx : r.id = xid
    · simp [List.find?_cons, hx]
    · simp only [List.cons_append]
      simp [List.find?_cons, hx, ih]

theorem getQueueItem_putItem_ne (tbl : List QueueItemDB) (it : QueueItemDB) {xid : Nat}
    (hne : it.id ≠ xid) : getQueueItem (putItem tbl it) xid = getQueueItem tbl xid := by
  unfold putItem getQueueItem
  split
  · exact find?_map_replace_ne tbl it hne
  · exact find?_append_singleton_ne tbl it hne

theorem find?_eq_some_of_nodup :
    ∀ (l : List QueueItemDB) (e : QueueItemDB), (l.map (fun i => i.id)).Nodup → e ∈ l →
      l.find? (fun i => i.id = e.id) = some e
  | [], e, _, he => absurd he (List.not_mem_nil e)
  | x :: xs, e, hnd, he => by
    simp only [List.map_cons, List.nodup_cons] at hnd
    by_cases hx : x.id = e.id
    · have hex : e = x := by
        rcases List.mem_cons.mp he with h | h
        · exact h
        · exact absurd (hx ▸ List.mem_map_of_mem (fun i => i.id) h) hnd.1
      simp [List.find?_cons, hx, hex]
    · have hexs : e ∈ xs := by
        rcases List.mem_cons.mp he with h | h
        · exact absurd (congrArg QueueItemDB.id h.symm) hx
        · exact h
      simp [List.find?_cons, hx, find?_eq_some_of_nodup xs e hnd.2 hexs]

/-! ### Reducer lookup lemmas -/

theorem itemStatusUpdated_find_self (s : QueueState) (pid : Nat) (st : Status) :
    (itemStatusUpdated s pid st none).items.find? (fun x => x.id = pid)
      = (s.items.find? (fun x => x.id = pid)).map (fun x => { x with status := st }) := by
  unfold itemStatusUpdated
  exact find?_updateFirst_self (fun i => { i with status := st }) (fun x => rfl) s.items

theorem itemStatusUpdated_find_ne (s : QueueState) (pid : Nat) (st : Status)
    (err : Option String) {xid : Nat} (hne : xid ≠ pid) :
    (itemStatusUpdated s pid st err).items.find? (fun x => x.id = xid)
      = s.items.find? (fun x => x.id = xid) := by
  unfold itemStatusUpdated
  exact find?_updateFirst_of_ne
    (fun i => { i with
      status := st
      error := match err with
        | some e => if e = "" then i.error else some e
        | none => i.error })
    (fun x => rfl) hne s.items

theorem itemRetried_find_ne (s : QueueState) (pid rc : Nat) {xid : Nat} (hne : xid ≠ pid) :
    (itemRetried s pid rc).items.find? (fun x => x.id = xid)
      = s.items.find? (fun x => x.id = xid) := by
  unfold itemRetried
  exact find?_updateFirst_of_ne
    (fun i => { i with retryCount := rc, status := Status.pending })
    (fun x => rfl) hne s.items

/-! ### `deleteItem` lemmas -/

theorem deleteItem_findStore_ne (w : World) (id0 : Nat) {xid : Nat} (hne : xid ≠ id0) :
    findStore (deleteItem w id0) xid = findStore w xid := by
  have hfilter : ∀ l : List QueueItemDB,
      (l.filter (fun i => i.id ≠ id0)).find? (fun i => i.id = xid)
        = l.find? (fun i => i.id = xid) := by
    intro l
    exact find?_filter_of_imp _ _ (fun x hx => by
      simp only [decide_eq_true_eq] at hx
      simpa [hx] using hne) l
  unfold deleteItem findStore
  cases h : w.queue.items.find? (fun i => i.id = id0) with
  | none =>
    simp only [h]
    exact hfilter _
  | some it =>
    simp only [h]
    exact hfilter _

theorem deleteItem_getQueueItem_ne (w : World) (id0 : Nat) {xid : Nat} (hne : xid ≠ id0) :
    getQueueItem (deleteItem w id0).formQueue xid = getQueueItem w.formQueue xid := by
  have hfilter : (deleteQueueItem w.formQueue id0).find? (fun r => r.id = xid)
      = w.formQueue.find? (fun r => r.id = xid) := by
    exact find?_filter_of_imp _ _ (fun x hx => by
      simp only [decide_eq_true_eq] at hx
      simpa [hx] using hne) w.formQueue
  unfold deleteItem getQueueItem
  cases h : w.queue.items.find? (fun i => i.id = id0) with
  | none => simp only [h]
  | some it =>
    simp only [h]
    exact hfilter

theorem deleteItem_images_sublist (w : World) (id0 : Nat) :
    List.Sublist (deleteItem w id0).queueImages w.queueImages := by
  unfold deleteItem
  cases h : w.queue.items.find? (fun i => i.id = id0) with
  | none =>
    simp only [h]
    exact List.Sublist.refl _
  | some it =>
    simp only [h]
    exact List.filter_sublist _

/-! ### `processItem` characterization and frame lemmas -/

theorem processItem_snd (client : DeliveryClient) (w : World) (i : QueueItemDB) :
    (processItem client w i).2 =
      { item := i
        images := getImages w.queueImages i.imageIds
        storeStatus :=
          (findStore { w with queue := itemStatusUpdated w.queue i.id Status.sending none } i.id).map
            (fun x => x.status)
        dbStatus := (getQueueItem w.formQueue i.id).map (fun d => d.status) } := by
  unfold processItem
  dsimp only
  split
  · rfl
  · split
    · split <;> rfl
    · split <;> rfl

theorem processItem_att (client : DeliveryClient) (w : World) (i : QueueItemDB) :
    (processItem client w i).2 =
      { item := i
        images := getImages w.queueImages i.imageIds
        storeStatus := (findStore w i.id).map (fun _ => Status.sending)
        dbStatus := (getQueueItem w.formQueue i.id).map (fun d => d.status) } := by
  rw [processItem_snd]
  have h : (findStore { w with queue := itemStatusUpdated w.queue i.id Status.sending none } i.id).map
      (fun x => x.status) = (findStore w i.id).map (fun _ => Status.sending) := by
    show ((itemStatusUpdated w.queue i.id Status.sending none).items.find?
        (fun x => x.id = i.id)).map (fun x => x.status)
      = (w.queue.items.find? (fun x => x.id = i.id)).map (fun _ => Status.sending)
    rw [itemStatusUpdated_find_self]
    cases w.queue.items.find? (fun x => x.id = i.id) <;> rfl
  rw [h]

theorem processItem_findStore_ne (client : DeliveryClient) (w : World) (i : QueueItemDB)
    {xid : Nat} (hne : xid ≠ i.id) :
    findStore (processItem client w i).1 xid = findStore w xid := by
  unfold processItem
  dsimp only
  split
  · rw [deleteItem_findStore_ne _ _ hne]
    show ((itemStatusUpdated (itemStatusUpdated w.queue i.id Status.sending none) i.id
      Status.sent none).items.find? (fun x => x.id = xid)) = findStore w xid
    rw [itemStatusUpdated_find_ne _ _ _ _ hne, itemStatusUpdated_find_ne _ _ _ _ hne]
    rfl
  · split
    · split
      · show ((itemStatusUpdated (itemStatusUpdated w.queue i.id Status.sending none) i.id
          Status.error _).items.find? (fun x => x.id = xid)) = findStore w xid
        rw [itemStatusUpdated_find_ne _ _ _ _ hne, itemStatusUpdated_find_ne _ _ _ _ hne]
        rfl
      · show ((itemStatusUpdated (itemStatusUpdated w.queue i.id Status.sending none) i.id
          Status.error _).items.find? (fun x => x.id = xid)) = findStore w xid
        rw [itemStatusUpdated_find_ne _ _ _ _ hne, itemStatusUpdated_find_ne _ _ _ _ hne]
        rfl
    · split
      · show ((itemRetried (itemStatusUpdated w.queue i.id Status.sending none) i.id
          _).items.find? (fun x => x.id = xid)) = findStore w xid
        rw [itemRetried_find_ne _ _ _ hne, itemStatusUpdated_find_ne _ _ _ _ hne]
        rfl
      · show ((itemRetried (itemStatusUpdated w.queue i.id Status.sending none) i.id
          _).items.find? (fun x => x.id = xid)) = findStore w xid
        rw [itemRetried_find_ne _ _ _ hne, itemStatusUpdated_find_ne _ _ _ _ hne]
        rfl

theorem processItem_getQueueItem_ne (client : DeliveryClient) (w : World) (i : QueueItemDB)
    {xid : Nat} (hne : xid ≠ i.id) :
    getQueueItem (processItem client w i).1.formQueue xid = getQueueItem w.formQueue xid := by
  unfold processItem
  dsimp only
  split
  · exact deleteItem_getQueueItem_ne _ _ hne
  · split
    · split
      · next dbItem hdb =>
        have hdb' : w.formQueue.find? (fun r => r.id = i.id) = some dbItem := hdb
        have hp := List.find?_some (p := fun r : QueueItemDB => decide (r.id = i.id)) hdb'
        have hid : dbItem.id = i.id := of_decide_eq_true hp
        exact getQueueItem_putItem_ne _ _ (by simpa [hid] using fun h => hne h.symm)
      · rfl
    · split
      · next dbItem hdb =>
        have hdb' : w.formQueue.find? (fun r => r.id = i.id) = some dbItem := hdb
        have hp := List.find?_some (p := fun r : QueueItemDB => decide (r.id = i.id)) hdb'
        have hid : dbItem.id = i.id := of_decide_eq_true hp
        exact getQueueItem_putItem_ne _ _ (by simpa [hid] using fun h => hne h.symm)
      · rfl

theorem processItem_images_sublist (client : DeliveryClient) (w : World) (i : QueueItemDB) :
    List.Sublist (processItem client w i).1.queueImages w.queueImages := by
  unfold processItem
  dsimp only
  split
  · exact deleteItem_images_sublist _ _
  · split
    · split <;> exact List.Sublist.refl _
    · split <;> exact List.Sublist.refl _

/-! ### `processPass` attempt log -/

theorem processPass_attempts (client : DeliveryClient) :
    ∀ (l : List QueueItemDB) (w : World),
      ((processPass client w l).2).map (fun a => a.item) = l
  | [], _ => rfl
  | i :: rest, w => by
    show ((processItem client w i).2 :: (processPass client (processItem client w i).1 rest).2).map
      (fun a => a.item) = i :: rest
    rw [List.map_cons, processPass_attempts client rest, processItem_att]

end OfflineQueue

namespace OfflineQueue

/-! ### Claim C5: no blob bytes in the reactive store -/

theorem jblob_not_mem_itemValues (i : QueueItemDB) (b : List Nat) :
    JValue.jblob b ∉ itemValues i := by
  intro h
  rcases herr : i.error with _ | e <;>
    simp [itemValues, herr] at h

/-- C5: in every reachable state of the reactive Queue Store, every item
carries only strings and numbers across the reactive boundary (its id,
timestamp, status string, retry count, string form fields, blob-id references
and optional error message) — never a raw binary blob. -/
theorem c5_store_items_blob_free (w : World) (hw : Reachable w) :
    ∀ i ∈ w.queue.items, ∀ v ∈ itemValues i, v.isBlob = false := by
  intro i _ v hv
  cases v with
  | jstr s => rfl
  | jnum n => rfl
  | jblob b => exact absurd hv (jblob_not_mem_itemValues i b)

/-- Witness for C5 at a concrete reachable world and a concrete transported
value. -/
theorem c5_store_items_blob_free_witness : (JValue.jnum 1).isBlob = false :=
  c5_store_items_blob_free oneItemWorld
    (Reachable.submit [("title", "x")] [⟨[1, 2, 3], "a.png", "image/png"⟩] Reachable.init)
    { id := 1, timestamp := 1, status := Status.pending, retryCount := 0,
      data := [("title", "x")], imageIds := [0], error := none }
    (by decide)
    (JValue.jnum 1) (by decide)

/-! ### Claim C6: offline is a no-op -/

/-- C6: when the connectivity signal reports offline, `processQueue` performs
zero delivery attempts and leaves every entry unchanged in the store and in
both persistence tables. -/
theorem c6_offline_noop (client : DeliveryClient) (w : World) :
    (processQueue client false w).2 = [] ∧
    (processQueue client false w).1.queue.items = w.queue.items ∧
    (processQueue client false w).1.formQueue = w.formQueue ∧
    (processQueue client false w).1.queueImages = w.queueImages :=
  ⟨rfl, rfl, rfl, rfl⟩

/-! ### Claim C8: one entry's failure never aborts the batch -/

/-- C8: whatever the Delivery Client answers (including failing every
submission), a `processQueue` pass submits exactly the snapshot of `pending`
entries, in order: a failure on one entry is handled per entry and every
later entry still gets its delivery attempt; no delivery error escapes the
pass (the pass is a total function). -/
theorem c8_failure_does_not_abort_batch (client : DeliveryClient) (w : World) :
    ((processQueue client true w).2).map (fun a => a.item)
      = w.queue.items.filter (fun i => i.status = Status.pending) := by
  unfold processQueue
  simp only [if_true]
  exact processPass_attempts client _ w

end OfflineQueue

namespace OfflineQueue

/-! ### Claim C1: retry bound under an always-failing client -/

/-- First processing pass over `oneItemWorld` with an always-failing client. -/
def pass1 : World × List Attempt := processQueue failingClient true oneItemWorld

/-- Second pass. -/
def pass2 : World × List Attempt := processQueue failingClient true pass1.1

/-- Third pass. -/
def pass3 : World × List Attempt := processQueue failingClient true pass2.1

/-- C1 (divergence witness): with a Delivery Client that fails every attempt,
the entry is submitted exactly once per pass (three attempts in all) and after
the third pass it has status `error` — but its `retryCount` is `2`, not `3`,
in the reactive store and in the persisted record alike: the third failure's
increment (`newRetryCount = 3`) is computed, used for the `>= 3` comparison,
and never written back to either representation. After the first two passes
the store shows `retryCount` `1` and `2` as expected. -/
theorem c1_error_reached_with_retry_count_two :
    pass1.2.length = 1 ∧ pass2.2.length = 1 ∧ pass3.2.length = 1 ∧
    (pass1.1.queue.items.map (fun i => (i.status, i.retryCount))
      = [(Status.pending, 1)]) ∧
    (pass2.1.queue.items.map (fun i => (i.status, i.retryCount))
      = [(Status.pending, 2)]) ∧
    (pass3.1.queue.items.map (fun i => (i.status, i.retryCount))
      = [(Status.error, 2)]) ∧
    (pass3.1.formQueue.map (fun d => (d.status, d.retryCount, d.error))
      = [(Status.error, 2, some "HTTP 500: fail")]) :=
  ⟨rfl, rfl, rfl, rfl, rfl, rfl, rfl⟩

/-! ### Claim C3: the Sending transition is not persisted -/

/-- C3 (counterexample): in a concrete pass over a `pending` entry, at the
moment the delivery attempt is made the reactive store shows `sending` but
the persisted `formQueue` record still has status `pending` — the persisted
status is not updated to `sending` before the delivery attempt. -/
theorem c3_counterexample_sending_not_persisted :
    ((processQueue acceptingClient true oneItemWorld).2.map
        (fun a => (a.storeStatus, a.dbStatus))
      = [(some Status.sending, some Status.pending)]) ∧
    (some Status.pending ≠ some Status.sending) :=
  ⟨rfl, by decide⟩

/-! ### Claim C10: overlapping passes double-deliver -/

/-- Initial system state for two triggers over `twoItemWorld` (entries `0`
and `1`, both `pending`). -/
def overlapStart : Sys := { w := twoItemWorld, t1 := none, t2 := none, log := [] }

/-- The interleaving in which the second trigger fires while the first pass is
awaiting I/O during its first item: pass 1 snapshots `[0, 1]` and processes
entry `0`; pass 2 then starts (snapshotting `[1]`, since `0` is already gone);
pass 1 processes entry `1` from its stale snapshot; pass 2 processes entry `1`
again. -/
def overlapSchedule : List SchedStep :=
  [SchedStep.start1, SchedStep.step1, SchedStep.start2, SchedStep.step1, SchedStep.step2]

/-- The resulting system state. -/
def overlapRun : Sys := schedExec acceptingClient true overlapStart overlapSchedule

/-- C10 (divergence witness): nothing in `processQueue` drops or defers a
trigger that fires while a pass is in flight (`processingItemSet` is never
dispatched), so in the concrete interleaving above the two passes overlap and
entry `1` is submitted to the Delivery Client twice. -/
theorem c10_overlapping_passes_double_deliver :
    (overlapRun.log.map (fun a => a.item.id) = [0, 1, 1]) ∧
    ((overlapRun.log.filter (fun a => a.item.id = 1)).length = 2) :=
  ⟨rfl, rfl⟩

end OfflineQueue

namespace OfflineQueue

/-! ### Sorting lemmas for `getAllQueueItems` -/

theorem insertByTs_perm (it : QueueItemDB) :
    ∀ l, List.Perm (insertByTs it l) (it :: l)
  | [] => List.Perm.refl _
  | x :: xs => by
    unfold insertByTs
    split
    · exact List.Perm.refl _
    · exact ((insertByTs_perm it xs).cons x).trans (List.Perm.swap it x xs)

theorem sortByTs_perm : ∀ l, List.Perm (sortByTs l) l
  | [] => List.Perm.refl _
  | x :: xs => (insertByTs_perm x (sortByTs xs)).trans ((sortByTs_perm xs).cons x)

theorem insertByTs_sorted (it : QueueItemDB) :
    ∀ l, (l.map (fun i => i.timestamp)).Pairwise (· ≤ ·) →
      ((insertByTs it l).map (fun i => i.timestamp)).Pairwise (· ≤ ·)
  | [], _ => by simp [insertByTs]
  | x :: xs, h => by
    unfold insertByTs
    split
    · next hlt =>
      simp only [List.map_cons, List.pairwise_cons] at h ⊢
      refine ⟨?_, h⟩
      intro b hb
      rcases List.mem_cons.mp hb with rfl | hbxs
      · exact Nat.le_of_lt hlt
      · exact Nat.le_trans (Nat.le_of_lt hlt) (h.1 b hbxs)
    · next hge =>
      simp only [List.map_cons, List.pairwise_cons] at h ⊢
      constructor
      · intro b hb
        have hb' : b ∈ (it :: xs).map (fun i => i.timestamp) :=
          (((insertByTs_perm it xs).map (fun i => i.timestamp)).mem_iff).mp hb
        rcases List.mem_cons.mp hb' with rfl | hbxs
        · exact Nat.le_of_not_lt hge
        · exact h.1 b hbxs
      · exact insertByTs_sorted it xs h.2

theorem sortByTs_sorted :
    ∀ l, ((sortByTs l).map (fun i => i.timestamp)).Pairwise (· ≤ ·)
  | [] => List.Pairwise.nil
  | x :: xs => insertByTs_sorted x (sortByTs xs) (sortByTs_sorted xs)

theorem sortByTs_sorted_lt (l : List QueueItemDB)
    (hnd : (l.map (fun i => i.timestamp)).Nodup) :
    ((sortByTs l).map (fun i => i.timestamp)).Pairwise (· < ·) := by
  have hperm : List.Perm ((sortByTs l).map (fun i => i.timestamp))
      (l.map (fun i => i.timestamp)) := (sortByTs_perm l).map _
  have hnd' : ((sortByTs l).map (fun i => i.timestamp)).Nodup := hperm.nodup_iff.mpr hnd
  refine List.Pairwise.imp ?_ (List.Pairwise.and (sortByTs_sorted l) hnd')
  exact fun h => Nat.lt_of_le_of_ne h.1 h.2

/-! ### Timestamp-projection lemmas for the reducers -/

theorem updateFirst_map_ts (p : QueueItemDB → Bool) (f : QueueItemDB → QueueItemDB)
    (hf : ∀ x, (f x).timestamp = x.timestamp) :
    ∀ l, (updateFirst p f l).map (fun i => i.timestamp) = l.map (fun i => i.timestamp)
  | [] => rfl
  | x :: xs => by
    unfold updateFirst
    split
    · simp [hf x]
    · simp [updateFirst_map_ts p f hf xs]

theorem itemStatusUpdated_map_ts (s : QueueState) (pid : Nat) (st : Status)
    (err : Option String) :
    (itemStatusUpdated s pid st err).items.map (fun i => i.timestamp)
      = s.items.map (fun i => i.timestamp) := by
  unfold itemStatusUpdated
  exact updateFirst_map_ts _
    (fun i => { i with
      status := st
      error := match err with
        | some e => if e = "" then i.error else some e
        | none => i.error })
    (fun x => rfl) s.items

theorem itemRetried_map_ts (s : QueueState) (pid rc : Nat) :
    (itemRetried s pid rc).items.map (fun i => i.timestamp)
      = s.items.map (fun i => i.timestamp) := by
  unfold itemRetried
  exact updateFirst_map_ts _
    (fun i => { i with retryCount := rc, status := Status.pending })
    (fun x => rfl) s.items

end OfflineQueue

namespace OfflineQueue

/-! ### Shape analysis of `processItem` -/

theorem processItem_shape (client : DeliveryClient) (w : World) (i : QueueItemDB) :
    ∃ q' : QueueState,
      q'.items.map (fun x => x.timestamp) = w.queue.items.map (fun x => x.timestamp) ∧
      ((processItem client w i).1 = deleteItem { w with queue := q' } i.id ∨
        (processItem client w i).1 = { w with queue := q' } ∨
        ∃ dbItem d' : QueueItemDB,
          getQueueItem w.formQueue i.id = some dbItem ∧
          d'.id = dbItem.id ∧ d'.timestamp = dbItem.timestamp ∧
          (d'.status = Status.pending ∨ d'.status = Status.error) ∧
          (processItem client w i).1
            = { w with queue := q', formQueue := putItem w.formQueue d' }) := by
  unfold processItem
  dsimp only
  cases hcl : client i (getImages w.queueImages i.imageIds) with
  | none =>
    simp only [hcl]
    exact ⟨itemStatusUpdated (itemStatusUpdated w.queue i.id Status.sending none) i.id
        Status.sent none,
      by rw [itemStatusUpdated_map_ts, itemStatusUpdated_map_ts], Or.inl rfl⟩
  | some msg =>
    simp only [hcl]
    by_cases hrc : 3 ≤ i.retryCount + 1
    · simp only [if_pos hrc]
      cases hdb : getQueueItem w.formQueue i.id with
      | some dbItem =>
        simp only [hdb]
        exact ⟨itemStatusUpdated (itemStatusUpdated w.queue i.id Status.sending none) i.id
            Status.error (some msg),
          by rw [itemStatusUpdated_map_ts, itemStatusUpdated_map_ts],
          Or.inr (Or.inr ⟨dbItem, { dbItem with status := Status.error, error := some msg },
            rfl, rfl, rfl, Or.inr rfl, rfl⟩)⟩
      | none =>
        simp only [hdb]
        exact ⟨itemStatusUpdated (itemStatusUpdated w.queue i.id Status.sending none) i.id
            Status.error (some msg),
          by rw [itemStatusUpdated_map_ts, itemStatusUpdated_map_ts], Or.inr (Or.inl rfl)⟩
    · simp only [if_neg hrc]
      cases hdb : getQueueItem w.formQueue i.id with
      | some dbItem =>
        simp only [hdb]
        exact ⟨itemRetried (itemStatusUpdated w.queue i.id Status.sending none) i.id
            (i.retryCount + 1),
          by rw [itemRetried_map_ts, itemStatusUpdated_map_ts],
          Or.inr (Or.inr ⟨dbItem,
            { dbItem with retryCount := i.retryCount + 1, status := Status.pending },
            rfl, rfl, rfl, Or.inl rfl, rfl⟩)⟩
      | none =>
        simp only [hdb]
        exact ⟨itemRetried (itemStatusUpdated w.queue i.id Status.sending none) i.id
            (i.retryCount + 1),
          by rw [itemRetried_map_ts, itemStatusUpdated_map_ts], Or.inr (Or.inl rfl)⟩

end OfflineQueue

namespace OfflineQueue

/-! ### `putItem` lemmas -/

theorem putItem_append (tbl : List QueueItemDB) (it : QueueItemDB)
    (h : ∀ r ∈ tbl, r.id ≠ it.id) : putItem tbl it = tbl ++ [it] := by
  unfold putItem
  rw [if_neg]
  intro hany
  rw [List.any_eq_true] at hany
  obtain ⟨r, hr, hid⟩ := hany
  exact h r hr (of_decide_eq_true hid)

theorem map_if_id_eq (d' : QueueItemDB) :
    ∀ rest : List QueueItemDB, (∀ x ∈ rest, x.id ≠ d'.id) →
      rest.map (fun r => if r.id = d'.id then d' else r) = rest
  | [], _ => rfl
  | x :: xs, h => by
    rw [List.map_cons, if_neg (h x (List.mem_cons_self x xs)),
      map_if_id_eq d' xs (fun y hy => h y (List.mem_cons_of_mem x hy))]

theorem putItem_maps (d' dbItem : QueueItemDB) (hts : d'.timestamp = dbItem.timestamp) :
    ∀ tbl : List QueueItemDB, (tbl.map (fun r => r.id)).Nodup →
      tbl.find? (fun r => r.id = d'.id) = some dbItem →
      (putItem tbl d').map (fun r => r.id) = tbl.map (fun r => r.id) ∧
      (putItem tbl d').map (fun r => r.timestamp) = tbl.map (fun r => r.timestamp)
  | [], _, hfind => by simp at hfind
  | r :: rest, hnd, hfind => by
    simp only [List.map_cons, List.nodup_cons] at hnd
    have hput : putItem (r :: rest) d'
        = (r :: rest).map (fun x => if x.id = d'.id then d' else x) := by
      unfold putItem
      rw [if_pos]
      rw [List.any_eq_true]
      have hmem := List.mem_of_find?_eq_some hfind
      have hp := List.find?_some (p := fun x : QueueItemDB => decide (x.id = d'.id)) hfind
      exact ⟨dbItem, hmem, hp⟩
    rw [hput]
    by_cases hr : r.id = d'.id
    · have hrd : dbItem = r := by
        rw [List.find?_cons_of_pos _ (by simpa using hr)] at hfind
        exact (Option.some.inj hfind).symm
      have hrest : rest.map (fun x => if x.id = d'.id then d' else x) = rest := by
        refine map_if_id_eq d' rest ?_
        intro x hx hxid
        have hrx : r.id = x.id := by rw [hr, hxid]
        exact hnd.1 (by rw [hrx]; exact List.mem_map_of_mem (fun y => y.id) hx)
      rw [List.map_cons, if_pos hr, List.map_cons, List.map_cons, hrest]
      constructor
      · exact congrArg (fun z => z :: rest.map (fun y => y.id)) hr.symm
      · exact congrArg (fun z => z :: rest.map (fun y => y.timestamp))
          (hts.trans (congrArg (fun y => y.timestamp) hrd))
    · have hfind' : rest.find? (fun x => x.id = d'.id) = some dbItem := by
        rw [List.find?_cons_of_neg _ (by simpa using hr)] at hfind
        exact hfind
      have ih := putItem_maps d' dbItem hts rest hnd.2 hfind'
      have hput' : putItem rest d' = rest.map (fun x => if x.id = d'.id then d' else x) := by
        unfold putItem
        rw [if_pos]
        rw [List.any_eq_true]
        have hmem := List.mem_of_find?_eq_some hfind'
        have hp := List.find?_some (p := fun x : QueueItemDB => decide (x.id = d'.id)) hfind'
        exact ⟨dbItem, hmem, hp⟩
      rw [hput'] at ih
      rw [List.map_cons, if_neg hr, List.map_cons, List.map_cons, List.map_cons, List.map_cons]
      exact ⟨congrArg (fun z => r.id :: z) ih.1, congrArg (fun z => r.timestamp :: z) ih.2⟩

theorem mem_putItem (tbl : List QueueItemDB) (it r : QueueItemDB)
    (hr : r ∈ putItem tbl it) : r = it ∨ r ∈ tbl := by
  unfold putItem at hr
  split at hr
  · rw [List.mem_map] at hr
    obtain ⟨x, hx, hxr⟩ := hr
    by_cases hid : x.id = it.id
    · rw [if_pos hid] at hxr
      exact Or.inl hxr.symm
    · rw [if_neg hid] at hxr
      exact Or.inr (hxr ▸ hx)
  · rw [List.mem_append] at hr
    rcases hr with h | h
    · exact Or.inr h
    · exact Or.inl (List.mem_singleton.mp h)

end OfflineQueue

namespace OfflineQueue

/-! ### The reachable-state invariant -/

/-- Invariant maintained by every controller operation: the store's items are
strictly sorted by timestamp; all timestamps precede the clock and all ids
precede the fresh-id counter; the persisted `formQueue` has no duplicate ids
or timestamps; and a persisted record's status is always `pending` or
`error` (never `sending` or `sent`). -/
structure WInv (w : World) : Prop where
  storeSorted : (w.queue.items.map (fun i => i.timestamp)).Pairwise (· < ·)
  storeTsLt : ∀ i ∈ w.queue.items, i.timestamp < w.now
  dbIdsNodup : (w.formQueue.map (fun d => d.id)).Nodup
  dbIdsLt : ∀ d ∈ w.formQueue, d.id < w.nextId
  dbTsNodup : (w.formQueue.map (fun d => d.timestamp)).Nodup
  dbTsLt : ∀ d ∈ w.formQueue, d.timestamp < w.now
  dbStatusPE : ∀ d ∈ w.formQueue, d.status = Status.pending ∨ d.status = Status.error

theorem winv_initial : WInv initialWorld := by
  constructor <;> simp [initialWorld]

theorem winv_withQueue {w : World} (h : WInv w) (q' : QueueState)
    (hq : q'.items.map (fun x => x.timestamp) = w.queue.items.map (fun x => x.timestamp)) :
    WInv { w with queue := q' } := by
  refine ⟨?_, ?_, h.dbIdsNodup, h.dbIdsLt, h.dbTsNodup, h.dbTsLt, h.dbStatusPE⟩
  · show (q'.items.map (fun x => x.timestamp)).Pairwise (· < ·)
    rw [hq]
    exact h.storeSorted
  · intro x hx
    have hmem : x.timestamp ∈ q'.items.map (fun y => y.timestamp) :=
      List.mem_map_of_mem _ hx
    rw [hq] at hmem
    obtain ⟨j, hj, hjts⟩ := List.mem_map.mp hmem
    rw [← hjts]
    exact h.storeTsLt j hj

theorem winv_deleteItem {w : World} (h : WInv w) (id0 : Nat) : WInv (deleteItem w id0) := by
  have hstore : List.Sublist ((deleteItem w id0).queue.items) w.queue.items := by
    unfold deleteItem
    cases hf : w.queue.items.find? (fun i => i.id = id0) with
    | none =>
      simp only [hf]
      exact List.filter_sublist _
    | some it =>
      simp only [hf]
      exact List.filter_sublist _
  have hdb : List.Sublist ((deleteItem w id0).formQueue) w.formQueue := by
    unfold deleteItem
    cases hf : w.queue.items.find? (fun i => i.id = id0) with
    | none =>
      simp only [hf]
      exact List.Sublist.refl _
    | some it =>
      simp only [hf]
      exact List.filter_sublist _
  have hnext : (deleteItem w id0).nextId = w.nextId := by
    unfold deleteItem
    cases hf : w.queue.items.find? (fun i => i.id = id0) with
    | none => simp only [hf]
    | some it => simp only [hf]
  have hnow : (deleteItem w id0).now = w.now := by
    unfold deleteItem
    cases hf : w.queue.items.find? (fun i => i.id = id0) with
    | none => simp only [hf]
    | some it => simp only [hf]
  refine ⟨?_, ?_, ?_, ?_, ?_, ?_, ?_⟩
  · exact List.Pairwise.sublist (hstore.map _) h.storeSorted
  · intro x hx
    rw [hnow]
    exact h.storeTsLt x (hstore.subset hx)
  · exact List.Nodup.sublist (hdb.map _) h.dbIdsNodup
  · intro d hd
    rw [hnext]
    exact h.dbIdsLt d (hdb.subset hd)
  · exact List.Nodup.sublist (hdb.map _) h.dbTsNodup
  · intro d hd
    rw [hnow]
    exact h.dbTsLt d (hdb.subset hd)
  · intro d hd
    exact h.dbStatusPE d (hdb.subset hd)

theorem winv_processItem {w : World} (h : WInv w) (client : DeliveryClient)
    (i : QueueItemDB) : WInv (processItem client w i).1 := by
  obtain ⟨q', hq, hcase⟩ := processItem_shape client w i
  rcases hcase with hres | hres | ⟨dbItem, d', hdb, hid, hts, hst, hres⟩
  · rw [hres]
    exact winv_deleteItem (winv_withQueue h q' hq) i.id
  · rw [hres]
    exact winv_withQueue h q' hq
  · rw [hres]
    have hbase := winv_withQueue h q' hq
    have hdbid : dbItem.id = i.id := by
      have hp := List.find?_some (p := fun r : QueueItemDB => decide (r.id = i.id)) hdb
      exact of_decide_eq_true hp
    have hfind' : w.formQueue.find? (fun r => r.id = d'.id) = some dbItem := by
      rw [hid, hdbid]
      exact hdb
    have hmaps := putItem_maps d' dbItem hts w.formQueue h.dbIdsNodup hfind'
    have hmemput : ∀ r ∈ putItem w.formQueue d', r = d' ∨ r ∈ w.formQueue :=
      fun r hr => mem_putItem w.formQueue d' r hr
    have hdbmem : dbItem ∈ w.formQueue := List.mem_of_find?_eq_some hdb
    refine ⟨hbase.storeSorted, hbase.storeTsLt, ?_, ?_, ?_, ?_, ?_⟩
    · show ((putItem w.formQueue d').map (fun d => d.id)).Nodup
      rw [hmaps.1]
      exact h.dbIdsNodup
    · intro d hd
      rcases hmemput d hd with rfl | hmem
      · show d.id < w.nextId
        rw [hid, hdbid]
        have := h.dbIdsLt dbItem hdbmem
        rw [hdbid] at this
        exact this
      · exact h.dbIdsLt d hmem
    · show ((putItem w.formQueue d').map (fun d => d.timestamp)).Nodup
      rw [hmaps.2]
      exact h.dbTsNodup
    · intro d hd
      rcases hmemput d hd with rfl | hmem
      · show d.timestamp < w.now
        rw [hts]
        exact h.dbTsLt dbItem hdbmem
      · exact h.dbTsLt d hmem
    · intro d hd
      rcases hmemput d hd with rfl | hmem
      · exact hst
      · exact h.dbStatusPE d hmem

theorem winv_processPass (client : DeliveryClient) :
    ∀ (l : List QueueItemDB) (w : World), WInv w → WInv (processPass client w l).1
  | [], _, h => h
  | i :: rest, w, h =>
    winv_processPass client rest (processItem client w i).1 (winv_processItem h client i)

theorem winv_processQueue {w : World} (h : WInv w) (client : DeliveryClient)
    (online : Bool) : WInv (processQueue client online w).1 := by
  unfold processQueue
  cases online with
  | false =>
    simp only [Bool.false_eq_true, if_false]
    exact winv_withQueue h _ rfl
  | true =>
    simp only [if_true]
    have hpass := winv_processPass client
      (w.queue.items.filter (fun i => i.status = Status.pending)) w h
    exact winv_withQueue hpass _ rfl

end OfflineQueue

namespace OfflineQueue

theorem winv_of_components {w w' : World} (h : WInv w) (hq : w'.queue = w.queue)
    (hdb : w'.formQueue = w.formQueue) (hnext : w.nextId ≤ w'.nextId)
    (hnow : w.now ≤ w'.now) : WInv w' := by
  refine ⟨?_, ?_, ?_, ?_, ?_, ?_, ?_⟩
  · rw [hq]; exact h.storeSorted
  · intro x hx
    rw [hq] at hx
    exact Nat.lt_of_lt_of_le (h.storeTsLt x hx) hnow
  · rw [hdb]; exact h.dbIdsNodup
  · intro d hd
    rw [hdb] at hd
    exact Nat.lt_of_lt_of_le (h.dbIdsLt d hd) hnext
  · rw [hdb]; exact h.dbTsNodup
  · intro d hd
    rw [hdb] at hd
    exact Nat.lt_of_lt_of_le (h.dbTsLt d hd) hnow
  · intro d hd
    rw [hdb] at hd
    exact h.dbStatusPE d hd

theorem winv_addToQueue {w : World} (h : WInv w) (data : List (String × String))
    (imageIds : List Nat) : WInv (addToQueue w data imageIds) := by
  unfold addToQueue
  dsimp only
  have hfresh : ∀ r ∈ w.formQueue, r.id ≠
      (⟨w.nextId, w.now, Status.pending, 0, data, imageIds, none⟩ : QueueItemDB).id :=
    fun r hr => Nat.ne_of_lt (h.dbIdsLt r hr)
  rw [putItem_append w.formQueue _ hfresh]
  refine ⟨?_, ?_, ?_, ?_, ?_, ?_, ?_⟩
  · rw [List.map_append, List.pairwise_append]
    refine ⟨h.storeSorted, List.pairwise_singleton _ _, ?_⟩
    intro a ha b hb
    obtain ⟨j, hj, hjts⟩ := List.mem_map.mp ha
    rw [List.map_singleton, List.mem_singleton] at hb
    rw [← hjts, hb]
    exact h.storeTsLt j hj
  · intro x hx
    rcases List.mem_append.mp hx with hmem | hmem
    · exact Nat.lt_succ_of_lt (h.storeTsLt x hmem)
    · rw [List.mem_singleton.mp hmem]
      exact Nat.lt_succ_self _
  · rw [List.map_append]
    refine List.Nodup.append h.dbIdsNodup (List.nodup_singleton _) ?_
    intro a ha hb
    rw [List.map_singleton, List.mem_singleton] at hb
    obtain ⟨j, hj, hjid⟩ := List.mem_map.mp ha
    rw [hb] at hjid
    exact absurd hjid.symm (Nat.ne_of_lt (h.dbIdsLt j hj)).symm
  · intro d hd
    rcases List.mem_append.mp hd with hmem | hmem
    · exact Nat.lt_succ_of_lt (h.dbIdsLt d hmem)
    · rw [List.mem_singleton.mp hmem]
      exact Nat.lt_succ_self _
  · rw [List.map_append]
    refine List.Nodup.append h.dbTsNodup (List.nodup_singleton _) ?_
    intro a ha hb
    rw [List.map_singleton, List.mem_singleton] at hb
    obtain ⟨j, hj, hjts⟩ := List.mem_map.mp ha
    rw [hb] at hjts
    exact absurd hjts.symm (Nat.ne_of_lt (h.dbTsLt j hj)).symm
  · intro d hd
    rcases List.mem_append.mp hd with hmem | hmem
    · exact Nat.lt_succ_of_lt (h.dbTsLt d hmem)
    · rw [List.mem_singleton.mp hmem]
      exact Nat.lt_succ_self _
  · intro d hd
    rcases List.mem_append.mp hd with hmem | hmem
    · exact h.dbStatusPE d hmem
    · rw [List.mem_singleton.mp hmem]
      exact Or.inl rfl

theorem winv_initQueue {w : World} (h : WInv w) : WInv (initQueue w) := by
  unfold initQueue
  refine ⟨?_, ?_, h.dbIdsNodup, h.dbIdsLt, h.dbTsNodup, h.dbTsLt, h.dbStatusPE⟩
  · exact sortByTs_sorted_lt w.formQueue h.dbTsNodup
  · intro x hx
    have hmem : x ∈ w.formQueue := (sortByTs_perm w.formQueue).subset hx
    exact h.dbTsLt x hmem

theorem saveImage_frame (w : World) (blob : List Nat) (fileName mimeType : String) :
    (saveImage w blob fileName mimeType).1.queue = w.queue ∧
    (saveImage w blob fileName mimeType).1.formQueue = w.formQueue ∧
    (saveImage w blob fileName mimeType).1.nextId = w.nextId + 1 ∧
    (saveImage w blob fileName mimeType).1.now = w.now + 1 :=
  ⟨rfl, rfl, rfl, rfl⟩

theorem saveImagesLoop_frame :
    ∀ (atts : List Attachment) (w : World),
      (saveImagesLoop w atts).1.queue = w.queue ∧
      (saveImagesLoop w atts).1.formQueue = w.formQueue ∧
      w.nextId ≤ (saveImagesLoop w atts).1.nextId ∧
      w.now ≤ (saveImagesLoop w atts).1.now
  | [], w => ⟨rfl, rfl, Nat.le_refl _, Nat.le_refl _⟩
  | a :: rest, w => by
    have ih := saveImagesLoop_frame rest (saveImage w a.blob a.fileName a.mimeType).1
    refine ⟨ih.1, ih.2.1, ?_, ?_⟩
    · exact Nat.le_trans (Nat.le_succ _) ih.2.2.1
    · exact Nat.le_trans (Nat.le_succ _) ih.2.2.2

theorem winv_submitForm {w : World} (h : WInv w) (data : List (String × String))
    (atts : List Attachment) : WInv (submitForm w data atts).1 := by
  unfold submitForm
  dsimp only
  have hframe := saveImagesLoop_frame atts w
  have h1 : WInv (saveImagesLoop w atts).1 :=
    winv_of_components h hframe.1 hframe.2.1 hframe.2.2.1 hframe.2.2.2
  exact winv_addToQueue h1 data (saveImagesLoop w atts).2

theorem reachable_WInv {w : World} (hw : Reachable w) : WInv w := by
  induction hw with
  | init => exact winv_initial
  | load _ ih => exact winv_initQueue ih
  | submit data atts _ ih => exact winv_submitForm ih data atts
  | process client online _ ih => exact winv_processQueue ih client online
  | remove id _ ih => exact winv_deleteItem ih id

end OfflineQueue

namespace OfflineQueue

/-! ### Claim C2: FIFO processing order -/

/-- C2: in every reachable Queue Store state, a `processQueue` pass attempts
delivery of the store's `pending` entries in ascending `timestamp`
(`createdAt`) order: if attempt `i` is for an entry created strictly earlier
than attempt `j`'s entry, then `i` comes strictly before `j`. (Reachable
store states are kept sorted: `initQueue` loads the rows sorted by timestamp,
and new entries are appended with a fresh, strictly larger timestamp.) -/
theorem c2_fifo_order (client : DeliveryClient) (w : World) (hw : Reachable w) :
    ∀ (i j : Nat) (hi : i < (processQueue client true w).2.length)
      (hj : j < (processQueue client true w).2.length),
      ((processQueue client true w).2.get ⟨i, hi⟩).item.timestamp
        < ((processQueue client true w).2.get ⟨j, hj⟩).item.timestamp → i < j := by
  intro i j hi hj hlt
  have hmap : ((processQueue client true w).2).map (fun a => a.item)
      = w.queue.items.filter (fun x => x.status = Status.pending) := by
    unfold processQueue
    simp only [if_true]
    exact processPass_attempts client _ w
  have hsorted : ((w.queue.items.filter (fun x => x.status = Status.pending)).map
      (fun x => x.timestamp)).Pairwise (· < ·) :=
    List.Pairwise.sublist ((List.filter_sublist _).map _) (reachable_WInv hw).storeSorted
  have hpw : ((processQueue client true w).2).Pairwise
      (fun a b => a.item.timestamp < b.item.timestamp) := by
    have hts : ((processQueue client true w).2).map (fun a => a.item.timestamp)
        = (w.queue.items.filter (fun x => x.status = Status.pending)).map
            (fun x => x.timestamp) := by
      rw [← hmap, List.map_map]
      rfl
    have h1 : (((processQueue client true w).2).map
        (fun a => a.item.timestamp)).Pairwise (· < ·) := by
      rw [hts]
      exact hsorted
    exact (List.pairwise_map).mp h1
  rcases Nat.lt_trichotomy i j with h | h | h
  · exact h
  · subst h
    exact absurd hlt (lt_irrefl _)
  · have hji := List.pairwise_iff_get.mp hpw ⟨j, hj⟩ ⟨i, hi⟩ h
    omega

/-- Witness for C2: in the two-entry world (timestamps 0 and 1), the theorem
instantiated at attempts 0 and 1 yields 0 < 1. -/
theorem c2_fifo_order_witness : (0 : Nat) < 1 :=
  c2_fifo_order acceptingClient twoItemWorld
    (Reachable.submit [("title", "b")] []
      (Reachable.submit [("title", "a")] [] Reachable.init))
    0 1 (by decide) (by decide) (by decide)

/-! ### Claim C9: persisted statuses are only Pending or Error -/

/-- C9: along every sequence of controller operations from the empty
database, every persisted `formQueue` record has status `pending` or `error`:
the `sending` transition is applied only to the in-memory store, and a
successful entry is deleted from persistence without `sent` ever being
written there. -/
theorem c9_persisted_status_pending_or_error (w : World) (hw : Reachable w) :
    ∀ d ∈ w.formQueue, d.status = Status.pending ∨ d.status = Status.error :=
  (reachable_WInv hw).dbStatusPE

/-- Witness for C9 at the world reached after a submission and three failing
passes: the surviving persisted record has status `error`. -/
theorem c9_persisted_status_witness :
    ({ id := 1, timestamp := 1, status := Status.error, retryCount := 2,
       data := [("title", "x")], imageIds := [0],
       error := some "HTTP 500: fail" } : QueueItemDB).status = Status.pending ∨
    ({ id := 1, timestamp := 1, status := Status.error, retryCount := 2,
       data := [("title", "x")], imageIds := [0],
       error := some "HTTP 500: fail" } : QueueItemDB).status = Status.error :=
  c9_persisted_status_pending_or_error pass3.1
    (Reachable.process failingClient true
      (Reachable.process failingClient true
        (Reachable.process failingClient true
          (Reachable.submit [("title", "x")] [⟨[1, 2, 3], "a.png", "image/png"⟩]
            Reachable.init))))
    _ (by decide)

end OfflineQueue

namespace OfflineQueue

/-! ### Per-entry success cleanup (Claim C4) -/

theorem processItem_success_absence (client : DeliveryClient) (w : World) (e : QueueItemDB)
    (hcl : client e (getImages w.queueImages e.imageIds) = none)
    (hfind : findStore w e.id = some e) :
    entryAbsent (processItem client w e).1 e := by
  have hfind1 : (itemStatusUpdated w.queue e.id Status.sending none).items.find?
      (fun x => x.id = e.id) = some { e with status := Status.sending } := by
    rw [itemStatusUpdated_find_self]
    rw [show w.queue.items.find? (fun x => x.id = e.id) = some e from hfind]
    rfl
  have hfind2 : (itemStatusUpdated (itemStatusUpdated w.queue e.id Status.sending none)
      e.id Status.sent none).items.find? (fun x => x.id = e.id)
      = some { e with status := Status.sent } := by
    rw [itemStatusUpdated_find_self, hfind1]
    rfl
  unfold processItem
  dsimp only
  simp only [hcl]
  unfold deleteItem
  dsimp only
  simp only [hfind2]
  refine ⟨?_, ?_, ?_⟩
  · exact find?_filter_ne_self _ _
  · exact find?_filter_ne_self _ _
  · intro g hg
    exact deleteImages_getImage_mem _ _ _ hg

theorem processItem_preserves_absence (client : DeliveryClient) (w : World)
    (j e : QueueItemDB) (hne : e.id ≠ j.id) (h : entryAbsent w e) :
    entryAbsent (processItem client w j).1 e := by
  obtain ⟨h1, h2, h3⟩ := h
  refine ⟨?_, ?_, ?_⟩
  · rw [processItem_findStore_ne client w j hne]
    exact h1
  · rw [processItem_getQueueItem_ne client w j hne]
    exact h2
  · intro g hg
    exact getImage_none_of_sublist (processItem_images_sublist client w j) (h3 g hg)

theorem processPass_preserves_absence (client : DeliveryClient) (e : QueueItemDB) :
    ∀ (l : List QueueItemDB) (w : World), (∀ j ∈ l, e.id ≠ j.id) → entryAbsent w e →
      entryAbsent (processPass client w l).1 e
  | [], _, _, h => h
  | j :: rest, w, hne, h =>
    processPass_preserves_absence client e rest (processItem client w j).1
      (fun x hx => hne x (List.mem_cons_of_mem j hx))
      (processItem_preserves_absence client w j e (hne j (List.mem_cons_self j rest)) h)

theorem processPass_absence (client : DeliveryClient) (e : QueueItemDB)
    (hcl : ∀ imgs, client e imgs = none) :
    ∀ (l : List QueueItemDB) (w : World), (l.map (fun i => i.id)).Nodup → e ∈ l →
      findStore w e.id = some e → entryAbsent (processPass client w l).1 e
  | [], _, _, he, _ => absurd he (List.not_mem_nil e)
  | j :: rest, w, hnd, he, hfind => by
    simp only [List.map_cons, List.nodup_cons] at hnd
    by_cases hej : j.id = e.id
    · have hje : j = e := by
        rcases List.mem_cons.mp he with h | h
        · exact h.symm
        · exact absurd (hej ▸ List.mem_map_of_mem (fun i => i.id) h) hnd.1
      subst hje
      have habs := processItem_success_absence client w j (hcl _) hfind
      refine processPass_preserves_absence client j rest (processItem client w j).1 ?_ habs
      intro x hx hxj
      exact hnd.1 (hxj ▸ List.mem_map_of_mem (fun i => i.id) hx)
    · have he' : e ∈ rest := by
        rcases List.mem_cons.mp he with h | h
        · exact absurd (congrArg QueueItemDB.id h.symm) hej
        · exact h
      have hfind' : findStore (processItem client w j).1 e.id = some e := by
        rw [processItem_findStore_ne client w j (fun hh => hej hh.symm)]
        exact hfind
      exact processPass_absence client e hcl rest (processItem client w j).1 hnd.2 he' hfind'

/-- C4: if an entry of the snapshot is `pending` and its delivery succeeds,
then after the pass the entry is gone from the reactive store, its record is
gone from the persisted `formQueue` table, and none of its referenced blobs
remain retrievable. -/
theorem c4_success_deletes_entry_and_blobs (client : DeliveryClient) (w : World)
    (e : QueueItemDB) (hnd : (w.queue.items.map (fun i => i.id)).Nodup)
    (he : e ∈ w.queue.items) (hp : e.status = Status.pending)
    (hcl : ∀ imgs, client e imgs = none) :
    entryAbsent (processQueue client true w).1 e := by
  unfold processQueue
  simp only [if_true]
  have hfilter_nd : ((w.queue.items.filter (fun x => x.status = Status.pending)).map
      (fun i => i.id)).Nodup :=
    List.Nodup.sublist ((List.filter_sublist _).map _) hnd
  have hef : e ∈ w.queue.items.filter (fun x => x.status = Status.pending) := by
    rw [List.mem_filter]
    exact ⟨he, by simp [hp]⟩
  have hfind : findStore w e.id = some e := find?_eq_some_of_nodup w.queue.items e hnd he
  obtain ⟨h1, h2, h3⟩ := processPass_absence client e hcl _ w hfilter_nd hef hfind
  exact ⟨h1, h2, h3⟩

/-- Witness for C4: the concrete one-entry world with a succeeding client. -/
theorem c4_success_deletes_entry_and_blobs_witness :
    entryAbsent (processQueue acceptingClient true oneItemWorld).1
      { id := 1, timestamp := 1, status := Status.pending, retryCount := 0,
        data := [("title", "x")], imageIds := [0], error := none } :=
  c4_success_deletes_entry_and_blobs acceptingClient oneItemWorld
    { id := 1, timestamp := 1, status := Status.pending, retryCount := 0,
      data := [("title", "x")], imageIds := [0], error := none }
    (by decide) (by decide) rfl (fun _ => rfl)

end OfflineQueue

namespace OfflineQueue

/-! ### The Sending transition is store-only (Claim C3, amended) -/

theorem processPass_attempt_status (client : DeliveryClient) (e d : QueueItemDB) :
    ∀ (l : List QueueItemDB) (w : World), (l.map (fun i => i.id)).Nodup → e ∈ l →
      findStore w e.id = some e → getQueueItem w.formQueue e.id = some d →
      ∃ a, ((processPass client w l).2).find? (fun a => a.item.id = e.id) = some a ∧
        a.item = e ∧ a.storeStatus = some Status.sending ∧ a.dbStatus = some d.status
  | [], _, _, he, _, _ => absurd he (List.not_mem_nil e)
  | j :: rest, w, hnd, he, hfind, hdb => by
    simp only [List.map_cons, List.nodup_cons] at hnd
    by_cases hej : j.id = e.id
    · have hje : j = e := by
        rcases List.mem_cons.mp he with h | h
        · exact h.symm
        · exact absurd (hej ▸ List.mem_map_of_mem (fun i => i.id) h) hnd.1
      subst hje
      refine ⟨(processItem client w j).2, ?_, ?_, ?_, ?_⟩
      · show ((processItem client w j).2 ::
          (processPass client (processItem client w j).1 rest).2).find?
            (fun a => a.item.id = j.id) = some (processItem client w j).2
        rw [List.find?_cons_of_pos]
        rw [processItem_att]
        simp
      · rw [processItem_att]
      · rw [processItem_att]
        show ((findStore w j.id).map (fun _ => Status.sending)) = some Status.sending
        rw [hfind]
        rfl
      · rw [processItem_att]
        show ((getQueueItem w.formQueue j.id).map (fun x => x.status)) = some d.status
        rw [hdb]
        rfl
    · have he' : e ∈ rest := by
        rcases List.mem_cons.mp he with h | h
        · exact absurd (congrArg QueueItemDB.id h.symm) hej
        · exact h
      have hfind' : findStore (processItem client w j).1 e.id = some e := by
        rw [processItem_findStore_ne client w j (fun hh => hej hh.symm)]
        exact hfind
      have hdb' : getQueueItem (processItem client w j).1.formQueue e.id = some d := by
        rw [processItem_getQueueItem_ne client w j (fun hh => hej hh.symm)]
        exact hdb
      obtain ⟨a, hfa, h1, h2, h3⟩ :=
        processPass_attempt_status client e d rest (processItem client w j).1 hnd.2 he' hfind' hdb'
      refine ⟨a, ?_, h1, h2, h3⟩
      show ((processItem client w j).2 ::
        (processPass client (processItem client w j).1 rest).2).find?
          (fun a => a.item.id = e.id) = some a
      rw [List.find?_cons_of_neg]
      · exact hfa
      · rw [processItem_att]
        simp [hej]

/-- C3 (amended): for a `pending` entry of a reachable-shaped store (distinct
ids) whose persisted record is `d`, the pass makes the entry's delivery
attempt with the store showing `sending` but the persisted record untouched:
its status at the attempt is still `d.status` (i.e. `pending`), not
`sending`. Only the store is updated before the delivery attempt. -/
theorem c3_amended_sending_is_store_only (client : DeliveryClient) (w : World)
    (e d : QueueItemDB) (hnd : (w.queue.items.map (fun i => i.id)).Nodup)
    (he : e ∈ w.queue.items) (hp : e.status = Status.pending)
    (hdb : getQueueItem w.formQueue e.id = some d) :
    ∃ a, ((processQueue client true w).2).find? (fun a => a.item.id = e.id) = some a ∧
      a.item = e ∧ a.storeStatus = some Status.sending ∧ a.dbStatus = some d.status := by
  unfold processQueue
  simp only [if_true]
  have hfilter_nd : ((w.queue.items.filter (fun x => x.status = Status.pending)).map
      (fun i => i.id)).Nodup :=
    List.Nodup.sublist ((List.filter_sublist _).map _) hnd
  have hef : e ∈ w.queue.items.filter (fun x => x.status = Status.pending) := by
    rw [List.mem_filter]
    exact ⟨he, by simp [hp]⟩
  have hfind : findStore w e.id = some e := find?_eq_some_of_nodup w.queue.items e hnd he
  exact processPass_attempt_status client e d _ w hfilter_nd hef hfind hdb

/-- Witness for the amended C3 at the concrete one-entry world. -/
theorem c3_amended_sending_is_store_only_witness :
    ∃ a, ((processQueue acceptingClient true oneItemWorld).2).find?
        (fun a => a.item.id = 1) = some a ∧
      a.item = { id := 1, timestamp := 1, status := Status.pending, retryCount := 0,
                 data := [("title", "x")], imageIds := [0], error := none } ∧
      a.storeStatus = some Status.sending ∧
      a.dbStatus = some Status.pending :=
  c3_amended_sending_is_store_only acceptingClient oneItemWorld
    { id := 1, timestamp := 1, status := Status.pending, retryCount := 0,
      data := [("title", "x")], imageIds := [0], error := none }
    { id := 1, timestamp := 1, status := Status.pending, retryCount := 0,
      data := [("title", "x")], imageIds := [0], error := none }
    (by decide) (by decide) rfl rfl

end OfflineQueue

namespace OfflineQueue

/-! ### Image-table lemmas (Claim C7) -/

theorem find?_map_replace_self_img (im : ImageData) :
    ∀ tbl : List ImageData, tbl.any (fun r => r.imageId = im.imageId) = true →
      (tbl.map (fun r => if r.imageId = im.imageId then im else r)).find?
        (fun r => r.imageId = im.imageId) = some im
  | [], hany => by simp at hany
  | r :: rest, hany => by
    by_cases hr : r.imageId = im.imageId
    · simp [List.find?_cons, hr]
    · have hrest : rest.any (fun x => x.imageId = im.imageId) = true := by
        rcases List.any_eq_true.mp hany with ⟨x, hx, hpx⟩
        rcases List.mem_cons.mp hx with rfl | hxr
        · exact absurd (of_decide_eq_true hpx) hr
        · exact List.any_eq_true.mpr ⟨x, hxr, hpx⟩
      simp only [List.map_cons]
      rw [if_neg hr]
      simp [List.find?_cons, hr, find?_map_replace_self_img im rest hrest]

theorem find?_append_self_img (im : ImageData) :
    ∀ tbl : List ImageData, (∀ x ∈ tbl, x.imageId ≠ im.imageId) →
      (tbl ++ [im]).find? (fun r => r.imageId = im.imageId) = some im
  | [], _ => by simp [List.find?_cons]
  | x :: xs, h => by
    simp only [List.cons_append]
    rw [List.find?_cons_of_neg _ (by simpa using h x (List.mem_cons_self x xs))]
    exact find?_append_self_img im xs (fun y hy => h y (List.mem_cons_of_mem x hy))

theorem getImage_putImage_self (tbl : List ImageData) (im : ImageData) :
    getImage (putImage tbl im) im.imageId = some im := by
  unfold putImage getImage
  split
  · next hany => exact find?_map_replace_self_img im tbl hany
  · next hany =>
    refine find?_append_self_img im tbl ?_
    intro x hx hxe
    exact hany (List.any_eq_true.mpr ⟨x, hx, by simpa using hxe⟩)

theorem find?_map_replace_ne_img (tbl : List ImageData) (im : ImageData) {g : Nat}
    (hne : im.imageId ≠ g) :
    (tbl.map (fun r => if r.imageId = im.imageId then im else r)).find?
      (fun r => r.imageId = g) = tbl.find? (fun r => r.imageId = g) := by
  induction tbl with
  | nil => rfl
  | cons r rest ih =>
    by_cases hr : r.imageId = im.imageId
    · have hrg : ¬ r.imageId = g := by rw [hr]; exact hne
      simp [List.find?_cons, hr, hne, hrg, ih]
    · by_cases hg : r.imageId = g
      · simp only [List.map_cons]
        rw [if_neg hr]
        simp [List.find?_cons, hg]
      · simp only [List.map_cons]
        rw [if_neg hr]
        simp [List.find?_cons, hg, ih]

theorem find?_append_singleton_ne_img (tbl : List ImageData) (im : ImageData) {g : Nat}
    (hne : im.imageId ≠ g) :
    (tbl ++ [im]).find? (fun r => r.imageId = g) = tbl.find? (fun r => r.imageId = g) := by
  induction tbl with
  | nil => simp [List.find?_cons, hne]
  | cons r rest ih =>
    by_cases hg : r.imageId = g
    · simp [List.find?_cons, hg]
    · simp only [List.cons_append]
      simp [List.find?_cons, hg, ih]

theorem getImage_putImage_ne (tbl : List ImageData) (im : ImageData) {g : Nat}
    (hne : im.imageId ≠ g) : getImage (putImage tbl im) g = getImage tbl g := by
  unfold putImage getImage
  split
  · exact find?_map_replace_ne_img tbl im hne
  · exact find?_append_singleton_ne_img tbl im hne

theorem putImage_append (tbl : List ImageData) (im : ImageData)
    (h : ∀ r ∈ tbl, r.imageId ≠ im.imageId) : putImage tbl im = tbl ++ [im] := by
  unfold putImage
  rw [if_neg]
  intro hany
  obtain ⟨r, hr, hid⟩ := List.any_eq_true.mp hany
  exact h r hr (of_decide_eq_true hid)

end OfflineQueue

namespace OfflineQueue

theorem saveImagesLoop_spec :
    ∀ (atts : List Attachment) (w : World),
      (saveImagesLoop w atts).1.nextId = w.nextId + atts.length ∧
      ((saveImagesLoop w atts).2).length = atts.length ∧
      (∀ g ∈ (saveImagesLoop w atts).2,
        w.nextId ≤ g ∧ g < (saveImagesLoop w atts).1.nextId) ∧
      (∀ g, g < w.nextId →
        getImage (saveImagesLoop w atts).1.queueImages g = getImage w.queueImages g) ∧
      ((saveImagesLoop w atts).2).map (fun g =>
          (getImage (saveImagesLoop w atts).1.queueImages g).map
            (fun im => (im.blob, im.fileName, im.mimeType)))
        = atts.map (fun a => some (a.blob, a.fileName, a.mimeType))
  | [], w => ⟨by simp [saveImagesLoop], rfl,
      fun g hg => absurd hg (List.not_mem_nil g), fun _ _ => rfl, rfl⟩
  | a :: rest, w => by
    have ih := saveImagesLoop_spec rest (saveImage w a.blob a.fileName a.mimeType).1
    have hn1 : (saveImage w a.blob a.fileName a.mimeType).1.nextId = w.nextId + 1 := rfl
    have himg1 : (saveImage w a.blob a.fileName a.mimeType).1.queueImages
        = putImage w.queueImages
            { imageId := w.nextId, blob := a.blob, fileName := a.fileName,
              mimeType := a.mimeType, uploadedAt := w.now } := rfl
    rw [hn1] at ih
    refine ⟨?_, ?_, ?_, ?_, ?_⟩
    · show (saveImagesLoop (saveImage w a.blob a.fileName a.mimeType).1 rest).1.nextId
        = w.nextId + (a :: rest).length
      rw [ih.1, List.length_cons]
      omega
    · show (w.nextId :: (saveImagesLoop (saveImage w a.blob a.fileName a.mimeType).1 rest).2).length
        = (a :: rest).length
      rw [List.length_cons, List.length_cons, ih.2.1]
    · intro g hg
      show w.nextId ≤ g ∧
        g < (saveImagesLoop (saveImage w a.blob a.fileName a.mimeType).1 rest).1.nextId
      have hg' : g ∈ w.nextId ::
          (saveImagesLoop (saveImage w a.blob a.fileName a.mimeType).1 rest).2 := hg
      rcases List.mem_cons.mp hg' with rfl | hgr
      · refine ⟨Nat.le_refl _, ?_⟩
        rw [ih.1]
        omega
      · have hb := ih.2.2.1 g hgr
        exact ⟨by omega, hb.2⟩
    · intro g hglt
      show getImage (saveImagesLoop (saveImage w a.blob a.fileName a.mimeType).1 rest).1.queueImages g
        = getImage w.queueImages g
      have h1 := ih.2.2.2.1 g (by omega)
      rw [h1, himg1]
      exact getImage_putImage_ne _ _ (Nat.ne_of_gt hglt)
    · show (w.nextId :: (saveImagesLoop (saveImage w a.blob a.fileName a.mimeType).1 rest).2).map
          (fun g => (getImage
            (saveImagesLoop (saveImage w a.blob a.fileName a.mimeType).1 rest).1.queueImages g).map
              (fun im => (im.blob, im.fileName, im.mimeType)))
        = (a :: rest).map (fun x => some (x.blob, x.fileName, x.mimeType))
      rw [List.map_cons, List.map_cons]
      have hhead : (getImage
          (saveImagesLoop (saveImage w a.blob a.fileName a.mimeType).1 rest).1.queueImages
            w.nextId).map (fun im => (im.blob, im.fileName, im.mimeType))
          = some (a.blob, a.fileName, a.mimeType) := by
        have hwlt : w.nextId < w.nextId + 1 := Nat.lt_succ_self _
        have h2 := ih.2.2.2.1 w.nextId hwlt
        rw [h2, himg1]
        have h3 : getImage (putImage w.queueImages
              { imageId := w.nextId, blob := a.blob, fileName := a.fileName,
                mimeType := a.mimeType, uploadedAt := w.now }) w.nextId
            = some { imageId := w.nextId, blob := a.blob, fileName := a.fileName,
                     mimeType := a.mimeType, uploadedAt := w.now } :=
          getImage_putImage_self w.queueImages _
        rw [h3]
        rfl
      rw [hhead, ih.2.2.2.2]

end OfflineQueue

namespace OfflineQueue

theorem saveImagesLoop_count :
    ∀ (atts : List Attachment) (w : World), (∀ im ∈ w.queueImages, im.imageId < w.nextId) →
      (saveImagesLoop w atts).1.queueImages.length = w.queueImages.length + atts.length ∧
      (∀ im ∈ (saveImagesLoop w atts).1.queueImages,
        im.imageId < (saveImagesLoop w atts).1.nextId)
  | [], _, h => ⟨by simp [saveImagesLoop], h⟩
  | a :: rest, w, h => by
    have happ : putImage w.queueImages
        { imageId := w.nextId, blob := a.blob, fileName := a.fileName,
          mimeType := a.mimeType, uploadedAt := w.now }
        = w.queueImages ++
          [{ imageId := w.nextId, blob := a.blob, fileName := a.fileName,
             mimeType := a.mimeType, uploadedAt := w.now }] :=
      putImage_append _ _ (fun r hr => Nat.ne_of_lt (h r hr))
    have h1 : ∀ im ∈ (saveImage w a.blob a.fileName a.mimeType).1.queueImages,
        im.imageId < (saveImage w a.blob a.fileName a.mimeType).1.nextId := by
      intro im him
      have him' : im ∈ w.queueImages ++
          [{ imageId := w.nextId, blob := a.blob, fileName := a.fileName,
             mimeType := a.mimeType, uploadedAt := w.now }] := by
        rw [← happ]
        exact him
      show im.imageId < w.nextId + 1
      rcases List.mem_append.mp him' with hmem | hmem
      · exact Nat.lt_succ_of_lt (h im hmem)
      · rw [List.mem_singleton.mp hmem]
        exact Nat.lt_succ_self _
    have ih := saveImagesLoop_count rest (saveImage w a.blob a.fileName a.mimeType).1 h1
    refine ⟨?_, ih.2⟩
    show (saveImagesLoop (saveImage w a.blob a.fileName a.mimeType).1 rest).1.queueImages.length
      = w.queueImages.length + (a :: rest).length
    rw [ih.1]
    have hlen : (saveImage w a.blob a.fileName a.mimeType).1.queueImages.length
        = w.queueImages.length + 1 := by
      show (putImage w.queueImages _).length = _
      rw [happ, List.length_append]
      rfl
    rw [hlen, List.length_cons]
    omega

theorem find?_append_self (it : QueueItemDB) :
    ∀ l : List QueueItemDB, (∀ x ∈ l, x.id ≠ it.id) →
      (l ++ [it]).find? (fun x => x.id = it.id) = some it
  | [], _ => by simp [List.find?_cons]
  | x :: xs, h => by
    simp only [List.cons_append]
    rw [List.find?_cons_of_neg _ (by simpa using h x (List.mem_cons_self x xs))]
    exact find?_append_self it xs (fun y hy => h y (List.mem_cons_of_mem x hy))

end OfflineQueue

namespace OfflineQueue

/-- C7: creating an entry with `N` attachments saves exactly `N` blob
records, gives the entry exactly `N` `imageIds` which resolve, in the
attachments' original order, to the attachments' blob, file name and mime
type; and after `deleteItem` on the new entry none of those blobs remain
retrievable. Hypotheses: every existing store id and image id is below the
fresh-id counter (as in every reachable world). -/
theorem c7_attachment_round_trip (w : World) (data : List (String × String))
    (atts : List Attachment)
    (hstore : ∀ i ∈ w.queue.items, i.id < w.nextId)
    (himg : ∀ im ∈ w.queueImages, im.imageId < w.nextId) :
    ∃ it, findStore (submitForm w data atts).1 (submitForm w data atts).2 = some it ∧
      it.imageIds.length = atts.length ∧
      (submitForm w data atts).1.queueImages.length
        = w.queueImages.length + atts.length ∧
      (it.imageIds.map (fun g =>
          (getImage (submitForm w data atts).1.queueImages g).map
            (fun im => (im.blob, im.fileName, im.mimeType)))
        = atts.map (fun a => some (a.blob, a.fileName, a.mimeType))) ∧
      (∀ g ∈ it.imageIds,
        getImage (deleteItem (submitForm w data atts).1
          (submitForm w data atts).2).queueImages g = none) := by
  have hspec := saveImagesLoop_spec atts w
  have hcount := saveImagesLoop_count atts w himg
  have hframe := saveImagesLoop_frame atts w
  have hitem : findStore (submitForm w data atts).1 (submitForm w data atts).2
      = some { id := (saveImagesLoop w atts).1.nextId,
               timestamp := (saveImagesLoop w atts).1.now,
               status := Status.pending, retryCount := 0, data := data,
               imageIds := (saveImagesLoop w atts).2, error := none } := by
    show ((saveImagesLoop w atts).1.queue.items ++
        [({ id := (saveImagesLoop w atts).1.nextId,
            timestamp := (saveImagesLoop w atts).1.now,
            status := Status.pending, retryCount := 0, data := data,
            imageIds := (saveImagesLoop w atts).2, error := none } : QueueItemDB)]).find?
      (fun x => x.id = (saveImagesLoop w atts).1.nextId) = _
    refine find?_append_self
      { id := (saveImagesLoop w atts).1.nextId,
        timestamp := (saveImagesLoop w atts).1.now,
        status := Status.pending, retryCount := 0, data := data,
        imageIds := (saveImagesLoop w atts).2, error := none }
      ((saveImagesLoop w atts).1.queue.items) ?_
    intro x hx
    rw [hframe.1] at hx
    have := hstore x hx
    have hge : w.nextId ≤ (saveImagesLoop w atts).1.nextId := hframe.2.2.1
    show x.id ≠ (saveImagesLoop w atts).1.nextId
    omega
  refine ⟨_, hitem, hspec.2.1, ?_, ?_, ?_⟩
  · show (saveImagesLoop w atts).1.queueImages.length = _
    exact hcount.1
  · show ((saveImagesLoop w atts).2).map (fun g =>
        (getImage (saveImagesLoop w atts).1.queueImages g).map
          (fun im => (im.blob, im.fileName, im.mimeType)))
      = atts.map (fun a => some (a.blob, a.fileName, a.mimeType))
    exact hspec.2.2.2.2
  · intro g hg
    have hitem' : (submitForm w data atts).1.queue.items.find?
        (fun i => i.id = (submitForm w data atts).2)
        = some { id := (saveImagesLoop w atts).1.nextId,
                 timestamp := (saveImagesLoop w atts).1.now,
                 status := Status.pending, retryCount := 0, data := data,
                 imageIds := (saveImagesLoop w atts).2, error := none } := hitem
    unfold deleteItem
    simp only [hitem']
    exact deleteImages_getImage_mem _ _ _ hg

/-- Witness for C7 with two concrete attachments from the empty world. -/
theorem c7_attachment_round_trip_witness :
    ∃ it, findStore (submitForm initialWorld [("title", "x")]
        [⟨[9], "a.png", "image/png"⟩, ⟨[8, 8], "b.png", "image/png"⟩]).1
        (submitForm initialWorld [("title", "x")]
          [⟨[9], "a.png", "image/png"⟩, ⟨[8, 8], "b.png", "image/png"⟩]).2 = some it ∧
      it.imageIds.length = 2 ∧
      (submitForm initialWorld [("title", "x")]
        [⟨[9], "a.png", "image/png"⟩, ⟨[8, 8], "b.png", "image/png"⟩]).1.queueImages.length
        = initialWorld.queueImages.length + 2 ∧
      (it.imageIds.map (fun g =>
          (getImage (submitForm initialWorld [("title", "x")]
            [⟨[9], "a.png", "image/png"⟩, ⟨[8, 8], "b.png", "image/png"⟩]).1.queueImages g).map
            (fun im => (im.blob, im.fileName, im.mimeType)))
        = [some ([9], "a.png", "image/png"), some ([8, 8], "b.png", "image/png")]) ∧
      (∀ g ∈ it.imageIds,
        getImage (deleteItem (submitForm initialWorld [("title", "x")]
            [⟨[9], "a.png", "image/png"⟩, ⟨[8, 8], "b.png", "image/png"⟩]).1
          (submitForm initialWorld [("title", "x")]
            [⟨[9], "a.png", "image/png"⟩, ⟨[8, 8], "b.png", "image/png"⟩]).2).queueImages g
          = none) :=
  c7_attachment_round_trip initialWorld [("title", "x")]
    [⟨[9], "a.png", "image/png"⟩, ⟨[8, 8], "b.png", "image/png"⟩]
    (by decide) (by decide)

end OfflineQueue
